import Mathlib

/-!
# hstspreload submission server: reconciliation, batch writes, submission

A shallow embedding of `src/server.go`, `src/database.go` and
`src/api/update_old.go`.

Modelling conventions.

* `chromiumpreload.Domain` and `PreloadStatus` are Go string types; both are `String` here.
* `time.Time` is a `Nat` (Unix seconds); `time.Now()` and `Time.Format` are parameters.
* A call `Fprintf(w, format, args...)` / `statusReport(format, args...)` is recorded as the
  pair of its format string and its argument list (`Fmt`), not rendered.
* The datastore is a `Datastore` value: an association list from key name to stored entity,
  the log of the `PutMulti` calls received, and oracles that say which backend calls fail.
* Go slices are lists, `append` adds at the end.  A Go `map[K]bool` is a function
  `K → Bool` whose default is `false` (the zero value read for a missing key).
* `for _, state := range updates` has ONE variable `state` for the whole loop (the Go
  semantics of every language version before 1.22, which this code base predates), so
  `&state` is the same address at every iteration.
-/

namespace HstsPreload

/-! ## Set difference (`server.go` 169–182, `update_old.go` 11–24) -/

/-- Go `m[k] = v` on a `map[string]bool` seen as a function. -/
def mapSet (m : String → Bool) (k : String) (v : Bool) : String → Bool :=
  fun x => if x = k then v else m x

/-- The empty Go map: every lookup gives the zero value `false`. -/
def mapEmpty : String → Bool := fun _ => false

/-- `difference` of `server.go`: first loop fills `takeSet`, second loop appends to `diff`. -/
def difference (from_ : List String) (take : List String) : List String :=
  let takeSet := take.foldl (fun m elem => mapSet m elem true) mapEmpty
  from_.foldl (fun diff elem => if !takeSet elem then diff ++ [elem] else diff) []

/-- `difference_old` of `api/update_old.go`: the same two loops over `[]string`. -/
def difference_old (from_ : List String) (take : List String) : List String :=
  let takeSet := take.foldl (fun m elem => mapSet m elem true) mapEmpty
  from_.foldl (fun diff elem => if !takeSet elem then diff ++ [elem] else diff) []

/-! ## Data model and datastore (`database.go`) -/

/-- Constant `batchSize` of `database.go`. -/
def batchSize : Nat := 450

def StatusUnknown : String := "unknown"
def StatusPending : String := "pending"
def StatusPreloaded : String := "preloaded"
def StatusRejected : String := "rejected"
def StatusRemoved : String := "removed"

/-- `DomainState` of `database.go`.  `Name` carries the tag `datastore:"-"`: it is the key
and is not part of the stored value. -/
structure DomainState where
  Name : String
  Status : String
  Message : String
  SubmissionDate : Nat
  deriving DecidableEq, Repr

/-- The Go zero value `DomainState{}`. -/
def DomainState.zero : DomainState := ⟨"", "", "", 0⟩

/-- What the datastore keeps of a value: every field but `Name`. -/
def DomainState.stored (s : DomainState) : DomainState := { s with Name := "" }

/-- One argument of a formatted write. -/
inductive Arg where
  | num (n : Nat)
  | str (s : String)
  deriving DecidableEq, Repr

/-- A call `f(format, args...)` of a printf-like function, kept unrendered. -/
structure Fmt where
  format : String
  args : List Arg
  deriving DecidableEq, Repr

/-- The datastore backend.  `entities` maps key names to stored values, `puts` logs every
`PutMulti` call received (keys and the values read through the pointers at that moment),
`calls` counts the backend interactions so far and `fault n` is the error, if any, with
which the `n`-th interaction fails. -/
structure Datastore where
  entities : List (String × DomainState)
  puts : List (List String × List DomainState)
  calls : Nat
  fault : Nat → Option String

/-- Upsert of one entity under key `k`. -/
def upsert (es : List (String × DomainState)) (k : String) (v : DomainState) :
    List (String × DomainState) :=
  if es.any (fun e => e.1 == k) then es.map (fun e => if e.1 = k then (k, v) else e)
  else es ++ [(k, v)]

/-- Effect of one successful bulk write on the entities: upsert each pair in order. -/
def applyPut (es : List (String × DomainState)) (kv : List String × List DomainState) :
    List (String × DomainState) :=
  (kv.1.zip kv.2).foldl (fun es p => upsert es p.1 p.2.stored) es

/-- `datastore.NewClient`: one backend interaction that may fail. -/
def NewClient (d : Datastore) : Datastore × Option String :=
  ({ d with calls := d.calls + 1 }, d.fault d.calls)

/-- `client.PutMulti(c, keys, values)`: logged, then applied as a whole unless it fails. -/
def PutMulti (d : Datastore) (keys : List String) (values : List DomainState) :
    Datastore × Option String :=
  match d.fault d.calls with
  | some err => ({ d with calls := d.calls + 1, puts := d.puts ++ [(keys, values)] }, some err)
  | none =>
    ({ d with calls := d.calls + 1, puts := d.puts ++ [(keys, values)],
              entities := applyPut d.entities (keys, values) }, none)

/-- Result of `putStates`: the backend afterwards, the `statusReport` calls made, the error. -/
structure PutResult where
  db : Datastore
  reports : List Fmt
  err : Option String

/-- The closure `putMulti` of `putStates` (`database.go` 67–77). -/
def putMulti (d : Datastore) (reports : List Fmt) (keys : List String)
    (values : List DomainState) : PutResult :=
  let reports := reports ++ [⟨"Updating %d entries...", [Arg.num keys.length]⟩]
  match PutMulti d keys values with
  | (d1, some err) => ⟨d1, reports ++ [⟨" failed.\n", []⟩], some err⟩
  | (d1, none) => ⟨d1, reports ++ [⟨" done.\n", []⟩], none⟩

/-- A `*DomainState` held in `values`: the only address ever taken is `&state`, the address
of the loop variable. -/
inductive Ref where
  | loopState
  deriving DecidableEq, Repr

/-- Reading through a pointer when the loop variable currently holds `state`. -/
def deref (state : DomainState) : Ref → DomainState
  | Ref.loopState => state

/-- The loop of `putStates` (`database.go` 79–98) followed by the final `putMulti`.
`state` is the current content of the loop variable; the list is what remains of `updates`. -/
def putStatesLoop (d : Datastore) (reports : List Fmt) (keys : List String) (values : List Ref)
    (state : DomainState) : List DomainState → PutResult
  | [] => putMulti d reports keys (values.map (deref state))
  | s :: rest =>
    let keys := keys ++ [s.Name]
    let values := values ++ [Ref.loopState]
    if keys.length ≥ batchSize then
      let r := putMulti d reports keys (values.map (deref s))
      match r.err with
      | some _ => r
      | none => putStatesLoop r.db r.reports [] [] s rest
    else putStatesLoop d reports keys values s rest

/-- `putStates` of `database.go`. -/
def putStates (d : Datastore) (updates : List DomainState) : PutResult :=
  if updates.length = 0 then ⟨d, [⟨"No updates.\n", []⟩], none⟩
  else
    match NewClient d with
    | (d1, some datastoreErr) => ⟨d1, [], some datastoreErr⟩
    | (d1, none) => putStatesLoop d1 [] [] [] DomainState.zero updates

/-- `putState` of `database.go`: one update, reports ignored. -/
def putState (d : Datastore) (update : DomainState) : Datastore × Option String :=
  let r := putStates d [update]
  (r.db, r.err)

/-- A backend with the given entities on which no interaction fails. -/
def healthy (es : List (String × DomainState)) : Datastore := ⟨es, [], 0, fun _ => none⟩

/-- Outcome of `client.Get`: the entity, the sentinel `ErrNoSuchEntity`, or another error. -/
inductive GetResult where
  | found (s : DomainState)
  | noSuchEntity
  | failed (err : String)

/-- `client.Get(c, key, &state)`. -/
def Get (d : Datastore) (key : String) : Datastore × GetResult :=
  match d.fault d.calls with
  | some err => ({ d with calls := d.calls + 1 }, GetResult.failed err)
  | none =>
    match d.entities.lookup key with
    | some s => ({ d with calls := d.calls + 1 }, GetResult.found s)
    | none => ({ d with calls := d.calls + 1 }, GetResult.noSuchEntity)

/-- `client.GetAll(c, query.KeysOnly(), nil)` for the query `Filter("Status =", status)`:
the key names of the entities with that status, in store order. -/
def GetAll (d : Datastore) (status : String) : Datastore × Except String (List String) :=
  match d.fault d.calls with
  | some err => ({ d with calls := d.calls + 1 }, Except.error err)
  | none =>
    ({ d with calls := d.calls + 1 },
      Except.ok ((d.entities.filter (fun e => e.2.Status = status)).map (fun e => e.1)))

/-- `stateForDomain` of `database.go`: the state (its `Name` not set) and the error.  When
the client or the read fails the returned state is the zero value. -/
def stateForDomain (d : Datastore) (domain : String) : Datastore × DomainState × Option String :=
  match NewClient d with
  | (d1, some datastoreErr) => (d1, DomainState.zero, some datastoreErr)
  | (d1, none) =>
    match Get d1 domain with
    | (d2, GetResult.failed getErr) => (d2, DomainState.zero, some getErr)
    | (d2, GetResult.noSuchEntity) => (d2, ⟨"", StatusUnknown, "", 0⟩, none)
    | (d2, GetResult.found state) => (d2, state, none)

/-- `domainsForQuery` of `database.go`, for the status-filter query. -/
def domainsForQuery (d : Datastore) (status : String) : Datastore × Except String (List String) :=
  match NewClient d with
  | (d1, some datastoreErr) => (d1, Except.error datastoreErr)
  | (d1, none) =>
    match GetAll d1 status with
    | (d2, Except.error err) => (d2, Except.error err)
    | (d2, Except.ok keys) => (d2, Except.ok (keys.foldl (fun domains key => domains ++ [key]) []))

/-- `domainsWithStatus` of `database.go`. -/
def domainsWithStatus (d : Datastore) (status : String) : Datastore × Except String (List String) :=
  domainsForQuery d status

/-! ## The preload list and the response writer -/

/-- Mode constant `chromiumpreload.ForceHTTPS` of the imported library (the value the
`pending` handler prints for `"mode"`). -/
def ForceHTTPS : String := "force-https"

/-- An entry of the upstream preload list. -/
structure Entry where
  Name : String
  Mode : String
  deriving DecidableEq, Repr

/-- The upstream preload list. -/
structure PreloadList where
  Entries : List Entry
  deriving DecidableEq, Repr

/-- `hstspreload.Issue`. -/
structure Issue where
  Code : String
  Summary : String
  Message : String
  deriving DecidableEq, Repr

/-- `hstspreload.Issues`. -/
structure Issues where
  Errors : List Issue
  Warnings : List Issue
  deriving DecidableEq, Repr

/-- What a handler does on its `http.ResponseWriter`, in order.  The message of
`http.Error` is the string rendered by `fmt.Sprintf`; its only verb is `%s` applied to an
error text, so the rendering is the concatenation written out at each call. -/
inductive Out where
  | printf (f : Fmt)
  | flush
  | httpError (msg : String) (code : Nat)
  | json (issues : Issues)
  deriving DecidableEq, Repr

/-- `writeJSONOrBust` of `server.go`, for a value of type `Issues`. -/
def writeJSONOrBust (v : Issues) : List Out := [Out.json v]

/-! ## Reconciliation (`server.go` 184–274) -/

/-- `update` of `server.go`.  `latest` is the outcome of `chromiumpreload.GetLatest()`,
`flusher` says whether the writer is an `http.Flusher`.  `statusReport` prints, flushes and
sets `written`; so `written` holds exactly when `putStates` reported something.  On a
failed update after a report the rendered message is itself passed as the format
(`fmt.Fprintf(w, msg)`), with no argument. -/
def update (d : Datastore) (latest : Except String PreloadList) (flusher : Bool) :
    Datastore × List Out :=
  match latest with
  | Except.error listErr =>
    (d, [Out.httpError ("Internal error: could not retrieve latest preload list. (" ++ listErr ++ ")\n") 500])
  | Except.ok preloadList =>
    let actualPreload := preloadList.Entries.foldl
      (fun acc entry => if entry.Mode = ForceHTTPS then acc ++ [entry.Name] else acc) []
    match domainsWithStatus d StatusPreloaded with
    | (d1, Except.error dbErr) =>
      (d1, [Out.httpError ("Internal error: could not retrieve domain names previously marked as preloaded. (" ++ dbErr ++ ")\n") 500])
    | (d1, Except.ok databasePreload) =>
      let added := difference actualPreload databasePreload
      let updates := added.foldl
        (fun updates name => updates ++ [⟨name, StatusPreloaded, "", 0⟩]) ([] : List DomainState)
      let removed := difference databasePreload actualPreload
      let updates := removed.foldl
        (fun updates name => updates ++ [⟨name, StatusRemoved, "", 0⟩]) updates
      let header := Out.printf ⟨"The preload list has %d entries.\n- # of preloaded HSTS entries: %d\n- # to be added in this update: %d\n- # to be removed this update: %d\n",
        [Arg.num preloadList.Entries.length, Arg.num actualPreload.length,
         Arg.num added.length, Arg.num removed.length]⟩
      if !flusher then
        (d1, [header, Out.httpError "Internal error: Could not create `http.Flusher`.\n" 500])
      else
        let r := putStates d1 updates
        let progress := r.reports.flatMap (fun f => [Out.printf f, Out.flush])
        match r.err with
        | some putErr =>
          let msg : String := "Internal error: datastore update failed. (" ++ putErr ++ ")\n"
          if r.reports ≠ [] then (r.db, [header] ++ progress ++ [Out.printf ⟨msg, []⟩])
          else (r.db, [header] ++ progress ++ [Out.httpError msg 500])
        | none =>
          (r.db, [header] ++ progress ++
            [Out.printf ⟨"Success. %d domain states updated.\n", [Arg.num updates.length]⟩])

/-! ## Reconciliation, three-way variant (`api/update_old.go`) -/

/-- Modelled from the spec: the constant `database.StatusPendingRemoval` of the package
`database`, which is not among the sources; the spec names the status `pending-removal`. -/
def StatusPendingRemoval : String := "pending-removal"

/-- The interface `api.database` as far as `Update_old` uses it; its implementation is not
among the sources, so it is a parameter.  `PutStates` returns the `logf` calls it made. -/
structure Database (σ : Type) where
  DomainsWithStatus_old : σ → String → σ × Except String (List String)
  PutStates : σ → List DomainState → σ × List Fmt × Option String

/-- The receiver `api`: its database and the outcome of `api.preloadlist.NewFromLatest()`. -/
structure API (σ : Type) where
  database : Database σ
  NewFromLatest : Except String PreloadList

/-- `Update_old` of `api/update_old.go`. -/
def Update_old {σ : Type} (api : API σ) (s : σ) : σ × List Out :=
  match api.NewFromLatest with
  | Except.error listErr =>
    (s, [Out.httpError ("Internal error: could not retrieve latest preload list. (" ++ listErr ++ ")\n") 500])
  | Except.ok preloadList =>
    let actualPreload := preloadList.Entries.foldl
      (fun acc entry => if entry.Mode = ForceHTTPS then acc ++ [entry.Name] else acc) []
    match api.database.DomainsWithStatus_old s StatusPreloaded with
    | (s1, Except.error dbErr) =>
      (s1, [Out.httpError ("Internal error: could not retrieve domain names previously marked as preloaded. (" ++ dbErr ++ ")\n") 500])
    | (s1, Except.ok databasePreload) =>
      match api.database.DomainsWithStatus_old s1 StatusPendingRemoval with
      | (s2, Except.error dbErr) =>
        (s2, [Out.httpError ("Internal error: could not retrieve domain names previously marked as pending removal. (" ++ dbErr ++ ")\n") 500])
      | (s2, Except.ok databasePendingRemoval) =>
        let added :=
          difference_old (difference_old actualPreload databasePreload) databasePendingRemoval
        let updates := added.foldl
          (fun updates name => updates ++ [⟨name, StatusPreloaded, "", 0⟩]) ([] : List DomainState)
        let removed := difference_old databasePreload actualPreload
        let updates := removed.foldl
          (fun updates name => updates ++ [⟨name, StatusRemoved, "", 0⟩]) updates
        let selfRejected := difference_old databasePendingRemoval actualPreload
        let updates := selfRejected.foldl
          (fun updates name => updates ++
            [⟨name, StatusRejected, "Domain was added and removed without being preloaded.", 0⟩])
          updates
        let header := Out.printf ⟨"The preload list has %d entries.\n- # of preloaded HSTS entries: %d\n- # to be added in this update: %d\n- # to be removed this update: %d\n- # to be self-rejected this update: %d\n",
          [Arg.num preloadList.Entries.length, Arg.num actualPreload.length,
           Arg.num added.length, Arg.num removed.length, Arg.num selfRejected.length]⟩
        match api.database.PutStates s2 updates with
        | (s3, logged, some putErr) =>
          let msg : String := "Internal error: datastore update failed. (" ++ putErr ++ ")\n"
          if logged ≠ [] then (s3, [header] ++ logged.map Out.printf ++ [Out.printf ⟨msg, []⟩])
          else (s3, [header] ++ logged.map Out.printf ++ [Out.httpError msg 500])
        | (s3, logged, none) =>
          (s3, [header] ++ logged.map Out.printf ++
            [Out.printf ⟨"Success. %d domain states updated.\n", [Arg.num updates.length]⟩])

/-! ## Submission (`server.go` 74–146) -/

/-- `submit` of `server.go`.  `PreloadableDomain` is the eligibility predicate of the
imported library (its issues), `now` is `time.Now()`, `format` is
`Time.Format("Monday, _2 January 2006")`, `domainStr` is the path after `/submit/`. -/
def submit (d : Datastore) (PreloadableDomain : String → Issues) (now : Nat)
    (format : Nat → String) (domainStr : String) : Datastore × List Out :=
  let domain := domainStr
  let issues := PreloadableDomain domainStr
  if issues.Errors.length > 0 then (d, writeJSONOrBust issues)
  else
    match stateForDomain d domain with
    | (d1, state, stateErr) =>
      let out : List Out := match stateErr with
        | some err => [Out.httpError ("Internal error: could not get current domain status. (" ++ err ++ ")\n") 500]
        | none => []
      if state.Status = StatusUnknown ∨ state.Status = StatusRejected
          ∨ state.Status = StatusRemoved then
        match putState d1 ⟨domain, StatusPending, "", now⟩ with
        | (d2, some _) =>
          let issue : Issue := ⟨"internal.server.preload.save_failed", "Internal error",
            "Unable to save to the pending list."⟩
          (d2, out ++ writeJSONOrBust ⟨issues.Errors ++ [issue], issues.Warnings⟩)
        | (d2, none) => (d2, out ++ writeJSONOrBust issues)
      else if state.Status = StatusPending then
        let formattedDate := format state.SubmissionDate
        let issue : Issue := ⟨"server.preload.already_pending", "Domain has already been submitted",
          "Domain is already pending. It was submitted on " ++ formattedDate ++ "."⟩
        (d1, out ++ writeJSONOrBust ⟨issues.Errors, issues.Warnings ++ [issue]⟩)
      else if state.Status = StatusPreloaded then
        let issue : Issue := ⟨"server.preload.already_preloaded", "Domain is already preloaded",
          "The domain is already preloaded."⟩
        (d1, out ++ writeJSONOrBust ⟨issues.Errors ++ [issue], issues.Warnings⟩)
      else
        let issue : Issue := ⟨"internal.server.preload.unknown_status", "Internal error",
          "Cannot preload; could not find domain status."⟩
        (d1, out ++ writeJSONOrBust ⟨issues.Warnings ++ [issue], issues.Warnings⟩)

/-! ## Description of the batches of `putStates` -/

/-- Consecutive blocks of a list: while at least `batchSize` elements remain a full block
of `batchSize` elements is cut off; what then remains (possibly nothing) is the last block.
The first argument bounds the number of full blocks. -/
def chunksAux : Nat → List DomainState → List (List DomainState)
  | 0, l => [l]
  | fuel + 1, l =>
    if l.length < batchSize then [l]
    else l.take batchSize :: chunksAux fuel (l.drop batchSize)

/-- The chunks `1..n` of a list of updates. -/
def chunks (updates : List DomainState) : List (List DomainState) :=
  chunksAux updates.length updates

/-- The bulk write made for a chunk: the keys are its names; all value pointers are the
address of the loop variable, which holds the last element of the chunk when the write is
made. -/
def bulk (c : List DomainState) : List String × List DomainState :=
  (c.map (fun s => s.Name), c.map (fun _ => c.getLast?.getD DomainState.zero))

/-- The progress reports for a chunk whose bulk write succeeds. -/
def reportDone (c : List DomainState) : List Fmt :=
  [⟨"Updating %d entries...", [Arg.num c.length]⟩, ⟨" done.\n", []⟩]

/-- The progress reports for a chunk whose bulk write fails. -/
def reportFailed (c : List DomainState) : List Fmt :=
  [⟨"Updating %d entries...", [Arg.num c.length]⟩, ⟨" failed.\n", []⟩]

/-- The chunks the loop of `putStates` forms from the pending part `acc` and the rest of
the updates (the loop without its effects). -/
def splitAcc (acc : List DomainState) : List DomainState → List (List DomainState)
  | [] => [acc]
  | s :: rest =>
    if (acc ++ [s]).length ≥ batchSize then (acc ++ [s]) :: splitAcc [] rest
    else splitAcc (acc ++ [s]) rest

/-- Bulk writes for a list of chunks, one after the other, stopping at the first error. -/
def runChunks (d : Datastore) (reports : List Fmt) : List (List DomainState) → PutResult
  | [] => ⟨d, reports, none⟩
  | c :: cs =>
    let r := putMulti d reports (bulk c).1 (bulk c).2
    match r.err with
    | some _ => r
    | none => runChunks r.db r.reports cs

/-! ## Concrete inputs used below -/

/-- A backend that fails exactly its interaction number `n`, with error `err`. -/
def failingAt (n : Nat) (err : String) : Datastore :=
  ⟨[], [], 0, fun i => if i = n then some err else none⟩

/-- A list of `n` updates to `preloaded`, named `0.example`, `1.example`, ... -/
def manyUpdates (n : Nat) : List DomainState :=
  (List.range n).map (fun i => ⟨toString i ++ ".example", StatusPreloaded, "", 0⟩)

/-- A full batch of 450 updates with distinct names: `a.com` to `preloaded`, then 448
updates to `removed`, then `y.com` to `removed`. -/
def firstChunk : List DomainState :=
  [⟨"a.com", StatusPreloaded, "", 0⟩]
    ++ (List.range 448).map (fun i => ⟨toString i ++ ".example", StatusRemoved, "", 0⟩)
    ++ [⟨"y.com", StatusRemoved, "", 0⟩]

/-- A plan of 451 updates: `firstChunk` followed by `z.com` to `preloaded`. -/
def mixedUpdates : List DomainState := firstChunk ++ [⟨"z.com", StatusPreloaded, "", 0⟩]

/-- A plan of two updates with different statuses. -/
def twoUpdates : List DomainState :=
  [⟨"a.com", StatusPreloaded, "", 0⟩, ⟨"c.com", StatusRemoved, "", 0⟩]

/-- The issue `submit` adds for a domain that is already preloaded. -/
def alreadyPreloadedIssue : Issue :=
  ⟨"server.preload.already_preloaded", "Domain is already preloaded",
    "The domain is already preloaded."⟩

/-- The issue `submit` adds for a domain that is already pending, quoting the formatted
stored submission date. -/
def alreadyPendingIssue (formattedDate : String) : Issue :=
  ⟨"server.preload.already_pending", "Domain has already been submitted",
    "Domain is already pending. It was submitted on " ++ formattedDate ++ "."⟩

/-- The issue `submit` adds when the stored status is not one it knows. -/
def unknownStatusIssue : Issue :=
  ⟨"internal.server.preload.unknown_status", "Internal error",
    "Cannot preload; could not find domain status."⟩

/-- An error the eligibility predicate may report. -/
def noHeaderIssue : Issue :=
  ⟨"response.no_header", "No HSTS header", "Response error: No HSTS header is present on the response."⟩

/-- A warning the eligibility predicate may report. -/
def maxAgeWarning : Issue :=
  ⟨"header.preloadable.max_age.over_10_years", "Max-age > 10 years",
    "The max-age is over ten years."⟩

/-- A date formatter standing for `Time.Format("Monday, _2 January 2006")`. -/
def showDate (t : Nat) : String := "day " ++ toString t

/-- A test double for the interface `api.database`: the listings are fixed, `PutStates`
records the updates it is given as the state and reports nothing. -/
def listingDatabase (P R : List String) : Database (List DomainState) where
  DomainsWithStatus_old := fun s status =>
    if status = StatusPreloaded then (s, Except.ok P)
    else if status = StatusPendingRemoval then (s, Except.ok R)
    else (s, Except.ok [])
  PutStates := fun s updates => (s ++ updates, [], none)

/-- The scenario of the spec: upstream `a.com`, `b.com` (both enforced), store preloaded
`b.com`, `c.com`, nothing pending removal. -/
def scenarioApi : API (List DomainState) where
  database := listingDatabase ["b.com", "c.com"] []
  NewFromLatest := Except.ok ⟨[⟨"a.com", ForceHTTPS⟩, ⟨"b.com", ForceHTTPS⟩]⟩

/-- A store in which `c.com` is recorded as preloaded. -/
def staleStore : Datastore := healthy [("c.com", ⟨"", StatusPreloaded, "", 0⟩)]

/-- An upstream list whose only entry is `a.com`, enforced. -/
def upstreamA : Except String PreloadList := Except.ok ⟨[⟨"a.com", ForceHTTPS⟩]⟩

/-- A store with one entity, `domain`, in the given status, submitted at time 1000. -/
def storeWith (domain status : String) : Datastore := healthy [(domain, ⟨"", status, "", 1000⟩)]

set_option maxRecDepth 100000

/-! ### Lemmas on `difference` -/

theorem takeSet_foldl (take : List String) (m : String → Bool) (x : String) :
    take.foldl (fun m elem => mapSet m elem true) m x = (decide (x ∈ take) || m x) := by
  induction take generalizing m with
  | nil => simp
  | cons t ts ih =>
    simp only [List.foldl_cons, ih, mapSet, List.mem_cons]
    by_cases hx : x = t
    · simp [hx]
    · simp [hx]

theorem takeSet_eq (take : List String) (x : String) :
    take.foldl (fun m elem => mapSet m elem true) mapEmpty x = decide (x ∈ take) := by
  simp [takeSet_foldl, mapEmpty]

theorem diffLoop_eq (p : String → Bool) (from_ acc : List String) :
    from_.foldl (fun diff elem => if !p elem then diff ++ [elem] else diff) acc
      = acc ++ from_.filter (fun x => !p x) := by
  induction from_ generalizing acc with
  | nil => simp
  | cons a l ih =>
    simp only [List.foldl_cons, ih, List.filter_cons]
    cases h : p a <;> simp

theorem difference_eq_filter (from_ take : List String) :
    difference from_ take = from_.filter (fun x => decide (x ∉ take)) := by
  unfold difference
  simp only [diffLoop_eq, List.nil_append]
  apply List.filter_congr
  intro x _
  simp [takeSet_eq]

theorem difference_old_eq (from_ take : List String) :
    difference_old from_ take = difference from_ take := rfl

theorem mem_difference {from_ take : List String} {x : String} :
    x ∈ difference from_ take ↔ x ∈ from_ ∧ x ∉ take := by
  simp [difference_eq_filter, List.mem_filter]

/-- C1: `difference from take` (and the identical `difference_old`) is `from` filtered by
"not a member of `take`": it contains no element of `take`, it is a sub-sequence of `from`
in the original order, and every occurrence of an element outside `take` is kept. -/
theorem difference_is_filter_not_mem (from_ take : List String) :
    difference from_ take = from_.filter (fun x => decide (x ∉ take))
    ∧ difference_old from_ take = from_.filter (fun x => decide (x ∉ take))
    ∧ (∀ x, x ∈ take → x ∉ difference from_ take)
    ∧ List.Sublist (difference from_ take) from_
    ∧ (∀ x, x ∉ take → (difference from_ take).count x = from_.count x)
    ∧ (∀ x, x ∈ difference from_ take ↔ x ∈ from_ ∧ x ∉ take) := by
  refine ⟨difference_eq_filter _ _, ?_, ?_, ?_, ?_, ?_⟩
  · rw [difference_old_eq, difference_eq_filter]
  · intro x hx hmem
    exact (mem_difference.mp hmem).2 hx
  · rw [difference_eq_filter]
    exact List.filter_sublist _
  · intro x hx
    rw [difference_eq_filter, List.count_filter]
    simpa using hx
  · intro x
    exact mem_difference


/-! ### The loop of `putStates` -/

theorem putStatesLoop_eq_runChunks (rest : List DomainState) :
    ∀ (acc : List DomainState) (cell : DomainState) (d : Datastore) (reports : List Fmt),
      (acc = [] ∨ acc.getLast? = some cell) →
      putStatesLoop d reports (acc.map (fun s => s.Name)) (acc.map (fun _ => Ref.loopState))
          cell rest
        = runChunks d reports (splitAcc acc rest) := by
  induction rest with
  | nil =>
    intro acc cell d reports hacc
    have hv : (acc.map (fun _ => Ref.loopState)).map (deref cell) = (bulk acc).2 := by
      rcases hacc with h | h
      · subst h; rfl
      · simp [bulk, h, deref]
    simp only [putStatesLoop, splitAcc, runChunks, hv]
    have hk : acc.map (fun s => s.Name) = (bulk acc).1 := rfl
    rw [hk]
    generalize putMulti d reports (bulk acc).1 (bulk acc).2 = r
    rcases r with ⟨db, rep, err⟩
    cases err <;> rfl
  | cons s rest ih =>
    intro acc cell d reports _
    have hk : acc.map (fun s => s.Name) ++ [s.Name] = (acc ++ [s]).map (fun s => s.Name) := by
      simp
    have hv : acc.map (fun _ => Ref.loopState) ++ [Ref.loopState]
        = (acc ++ [s]).map (fun _ => Ref.loopState) := by simp
    have hlast : (acc ++ [s]).getLast? = some s := by simp
    have hd : ((acc ++ [s]).map (fun _ => Ref.loopState)).map (deref s) = (bulk (acc ++ [s])).2 := by
      simp [bulk, deref]
    simp only [putStatesLoop, splitAcc, hk, hv, List.length_map]
    by_cases hlen : (acc ++ [s]).length ≥ batchSize
    · simp only [hlen, if_true, runChunks, hd]
      have hk2 : (acc ++ [s]).map (fun s => s.Name) = (bulk (acc ++ [s])).1 := rfl
      rw [hk2]
      generalize putMulti d reports (bulk (acc ++ [s])).1 (bulk (acc ++ [s])).2 = r
      rcases r with ⟨db, rep, err⟩
      cases err with
      | some e => rfl
      | none => exact ih [] s db rep (Or.inl rfl)
    · simp only [hlen, if_false]
      exact ih (acc ++ [s]) s d reports (Or.inr hlast)

theorem splitAcc_eq_chunksAux (rest : List DomainState) :
    ∀ (fuel : Nat) (acc : List DomainState), acc.length < batchSize → rest.length ≤ fuel →
      splitAcc acc rest = chunksAux fuel (acc ++ rest) := by
  induction rest with
  | nil =>
    intro fuel acc hacc _
    cases fuel with
    | zero => simp [splitAcc, chunksAux]
    | succ f => simp [splitAcc, chunksAux, hacc]
  | cons s rest ih =>
    intro fuel acc hacc hfuel
    cases fuel with
    | zero => simp at hfuel
    | succ f =>
      have hf : rest.length ≤ f := by simpa using hfuel
      by_cases hlen : (acc ++ [s]).length ≥ batchSize
      · have hal : acc.length + 1 = batchSize := by
          simp at hlen; omega
        have hnot : ¬ (acc ++ s :: rest).length < batchSize := by
          simp; omega
        have htake : (acc ++ s :: rest).take batchSize = acc ++ [s] := by
          rw [← hal]
          have : acc ++ s :: rest = (acc ++ [s]) ++ rest := by simp
          rw [this]
          exact List.take_left' (by simp)
        have hdrop : (acc ++ s :: rest).drop batchSize = rest := by
          rw [← hal]
          have : acc ++ s :: rest = (acc ++ [s]) ++ rest := by simp
          rw [this]
          exact List.drop_left' (by simp)
        simp only [splitAcc, hlen, if_true, chunksAux, hnot, if_false, htake, hdrop]
        have := ih f [] (by simp [batchSize]) hf
        simpa using this
      · have hlt : (acc ++ [s]).length < batchSize := by omega
        simp only [splitAcc, hlen, if_false]
        have := ih (f + 1) (acc ++ [s]) hlt (by omega)
        simpa using this

theorem putStatesLoop_eq_chunks (d : Datastore) (reports : List Fmt) (cell : DomainState)
    (updates : List DomainState) :
    putStatesLoop d reports [] [] cell updates = runChunks d reports (chunks updates) := by
  have h := putStatesLoop_eq_runChunks updates [] cell d reports (Or.inl rfl)
  have h2 := splitAcc_eq_chunksAux updates updates.length [] (by simp [batchSize]) (le_refl _)
  simp only [List.map_nil, List.nil_append] at h h2
  rw [h, h2, chunks]


/-! ### Running the bulk writes against the backend -/

theorem runChunks_ok (cs : List (List DomainState)) :
    ∀ (d : Datastore) (reports : List Fmt),
      (∀ j, j < cs.length → d.fault (d.calls + j) = none) →
      runChunks d reports cs =
        ⟨⟨cs.foldl (fun es c => applyPut es (bulk c)) d.entities, d.puts ++ cs.map bulk,
           d.calls + cs.length, d.fault⟩,
         reports ++ cs.flatMap reportDone, none⟩ := by
  induction cs with
  | nil =>
    intro d reports _
    simp [runChunks]
  | cons c cs ih =>
    intro d reports h
    have h0 : d.fault d.calls = none := by simpa using h 0 (by simp)
    simp only [runChunks, putMulti, PutMulti, h0]
    rw [ih]
    · simp [reportDone, bulk, Nat.add_assoc, Nat.add_comm 1]
    · intro j hj
      have := h (j + 1) (by simpa using hj)
      simpa [Nat.add_assoc, Nat.add_comm 1] using this

theorem runChunks_fail (pre : List (List DomainState)) :
    ∀ (d : Datastore) (reports : List Fmt) (c : List DomainState)
      (post : List (List DomainState)) (e : String),
      (∀ j, j < pre.length → d.fault (d.calls + j) = none) →
      d.fault (d.calls + pre.length) = some e →
      runChunks d reports (pre ++ c :: post) =
        ⟨⟨pre.foldl (fun es c => applyPut es (bulk c)) d.entities,
           d.puts ++ (pre ++ [c]).map bulk, d.calls + pre.length + 1, d.fault⟩,
         reports ++ pre.flatMap reportDone ++ reportFailed c, some e⟩ := by
  induction pre with
  | nil =>
    intro d reports c post e _ he
    have he0 : d.fault d.calls = some e := by simpa using he
    simp [runChunks, putMulti, PutMulti, he0, reportFailed, bulk]
  | cons p pre ih =>
    intro d reports c post e h he
    have h0 : d.fault d.calls = none := by simpa using h 0 (by simp)
    simp only [List.cons_append, runChunks, putMulti, PutMulti, h0, List.append_eq]
    rw [ih _ _ c post e]
    · simp [reportDone, bulk, Nat.add_assoc, Nat.add_comm 1]
    · intro j hj
      have := h (j + 1) (by simpa using hj)
      simpa [Nat.add_assoc, Nat.add_comm 1] using this
    · simpa [Nat.add_assoc, Nat.add_comm 1] using he


/-! ### Facts on `chunks` -/

theorem chunksAux_flatten (fuel : Nat) :
    ∀ l : List DomainState, (chunksAux fuel l).flatten = l := by
  induction fuel with
  | zero => intro l; simp [chunksAux]
  | succ f ih =>
    intro l
    by_cases h : l.length < batchSize
    · simp [chunksAux, h]
    · simp [chunksAux, h, ih]

theorem chunks_flatten (updates : List DomainState) : (chunks updates).flatten = updates :=
  chunksAux_flatten _ _

theorem chunksAux_length_le (fuel : Nat) :
    ∀ l : List DomainState, l.length ≤ fuel → ∀ c ∈ chunksAux fuel l, c.length ≤ batchSize := by
  induction fuel with
  | zero =>
    intro l hl c hc
    simp [chunksAux] at hc
    subst hc
    omega
  | succ f ih =>
    intro l hl c hc
    by_cases h : l.length < batchSize
    · simp [chunksAux, h] at hc
      subst hc
      omega
    · simp only [chunksAux, h, if_false, List.mem_cons] at hc
      rcases hc with hc | hc
      · subst hc
        simp
      · refine ih (l.drop batchSize) ?_ c hc
        simp [batchSize] at h ⊢
        omega

theorem chunks_length_le (updates : List DomainState) :
    ∀ c ∈ chunks updates, c.length ≤ batchSize :=
  chunksAux_length_le _ _ (le_refl _)

theorem chunksAux_length (fuel : Nat) :
    ∀ l : List DomainState, l.length ≤ fuel →
      (chunksAux fuel l).length = l.length / batchSize + 1 := by
  induction fuel with
  | zero =>
    intro l hl
    have : l.length = 0 := by omega
    simp [chunksAux, this]
  | succ f ih =>
    intro l hl
    by_cases h : l.length < batchSize
    · simp [chunksAux, h, Nat.div_eq_of_lt h]
    · have hge : batchSize ≤ l.length := by omega
      have hd : (l.drop batchSize).length ≤ f := by
        simp [batchSize] at hge ⊢
        omega
      simp only [chunksAux, h, if_false, List.length_cons, ih _ hd, List.length_drop]
      have : l.length / batchSize = (l.length - batchSize) / batchSize + 1 := by
        rw [Nat.div_eq_sub_div (by simp [batchSize]) hge]
      omega

theorem chunks_length (updates : List DomainState) :
    (chunks updates).length = updates.length / batchSize + 1 :=
  chunksAux_length _ _ (le_refl _)

theorem chunksAux_nil (fuel : Nat) : chunksAux fuel [] = [[]] := by
  cases fuel with
  | zero => rfl
  | succ f => simp [chunksAux, batchSize]

theorem chunks_of_full_batch (updates : List DomainState) (h : updates.length = batchSize) :
    chunks updates = [updates, []] := by
  obtain ⟨f, hf⟩ : ∃ f, updates.length = f + 1 := ⟨449, by rw [h]; rfl⟩
  have hnot : ¬ updates.length < batchSize := by omega
  have htake : updates.take batchSize = updates := by
    rw [← h]; exact List.take_length _
  have hdrop : updates.drop batchSize = [] := by
    rw [← h]; exact List.drop_length _
  unfold chunks
  rw [hf]
  simp only [chunksAux, hnot, if_false, htake, hdrop, chunksAux_nil]

/-! ### `putStates` as a whole -/

theorem putStates_all_ok (d : Datastore) (updates : List DomainState) (hne : updates ≠ [])
    (hok : ∀ j, j ≤ (chunks updates).length → d.fault (d.calls + j) = none) :
    putStates d updates =
      ⟨⟨(chunks updates).foldl (fun es c => applyPut es (bulk c)) d.entities,
         d.puts ++ (chunks updates).map bulk, d.calls + 1 + (chunks updates).length, d.fault⟩,
       (chunks updates).flatMap reportDone, none⟩ := by
  have hlen : ¬ updates.length = 0 := by
    intro h; exact hne (List.length_eq_zero.mp h)
  have h0 : d.fault d.calls = none := by simpa using hok 0 (Nat.zero_le _)
  simp only [putStates, hlen, if_false, NewClient, h0, putStatesLoop_eq_chunks]
  rw [runChunks_ok]
  · simp
  · intro j hj
    have := hok (1 + j) (by omega)
    simpa [Nat.add_assoc] using this

/-! ### Claims on `putStates` -/

theorem chunks_split_at (cs : List (List DomainState)) (m : Nat) (h : m < cs.length) :
    cs = cs.take m ++ cs.getD m [] :: cs.drop (m + 1) := by
  have h1 : cs.getD m [] = cs[m] := by
    simp [List.getD_eq_getElem?_getD, List.getElem?_eq_getElem h]
  rw [h1, ← List.drop_eq_getElem_cons h, List.take_append_drop]

theorem chunks_take_succ (cs : List (List DomainState)) (m : Nat) (h : m < cs.length) :
    cs.take (m + 1) = cs.take m ++ [cs.getD m []] := by
  have h1 : cs.getD m [] = cs[m] := by
    simp [List.getD_eq_getElem?_getD, List.getElem?_eq_getElem h]
  rw [h1, List.take_succ, List.getElem?_eq_getElem h]
  rfl

/-- The outcome of `putStates` when the client is obtained, the bulk writes of chunks
`1..m` succeed and the bulk write of chunk `m + 1` fails with `e`: the error is `e`, the
bulk writes received are those of chunks `1..m+1` and nothing after, the entities are those
produced by the bulk writes of chunks `1..m`, the reports end with ` failed.`. -/
theorem putStates_fail_at_chunk (d : Datastore) (updates : List DomainState) (m : Nat)
    (e : String) (hne : updates ≠ []) (hm : m < (chunks updates).length)
    (hclient : d.fault d.calls = none)
    (hok : ∀ j, 1 ≤ j → j < m + 1 → d.fault (d.calls + j) = none)
    (hfail : d.fault (d.calls + (m + 1)) = some e) :
    putStates d updates =
      ⟨⟨((chunks updates).take m).foldl (fun es c => applyPut es (bulk c)) d.entities,
         d.puts ++ ((chunks updates).take (m + 1)).map bulk, d.calls + 1 + m + 1, d.fault⟩,
       ((chunks updates).take m).flatMap reportDone
         ++ reportFailed ((chunks updates).getD m []), some e⟩ := by
  have hlen : ¬ updates.length = 0 := by
    intro h; exact hne (List.length_eq_zero.mp h)
  have hpre : ((chunks updates).take m).length = m := by
    simp [List.length_take]; omega
  simp only [putStates, hlen, if_false, NewClient, hclient, putStatesLoop_eq_chunks]
  rw [chunks_split_at (chunks updates) m hm]
  rw [runChunks_fail _ _ _ _ _ e]
  · rw [← chunks_split_at (chunks updates) m hm, chunks_take_succ _ m hm, hpre]
    simp
  · intro j hj
    rw [hpre] at hj
    have := hok (1 + j) (by omega) (by omega)
    simpa [Nat.add_assoc] using this
  · rw [hpre]
    simpa [Nat.add_assoc, Nat.add_comm 1 m] using hfail

/-! ### What a bulk write leaves in the store -/

theorem lookup_map_upsert_ne (es : List (String × DomainState)) (k k1 : String)
    (v : DomainState) (h : k ≠ k1) :
    (es.map (fun e => if e.1 = k1 then (k1, v) else e)).lookup k = es.lookup k := by
  induction es with
  | nil => rfl
  | cons e es ih =>
    rcases e with ⟨ek, ev⟩
    by_cases he : ek = k1
    · subst he
      have hk : (k == ek) = false := by simpa using h
      simp [List.lookup_cons, hk, ih]
    · simp only [List.map_cons, he, if_false, List.lookup_cons, ih]

theorem lookup_map_upsert_eq (es : List (String × DomainState)) (k : String) (v : DomainState)
    (h : es.any (fun e => e.1 == k) = true) :
    (es.map (fun e => if e.1 = k then (k, v) else e)).lookup k = some v := by
  induction es with
  | nil => simp at h
  | cons e es ih =>
    rcases e with ⟨ek, ev⟩
    by_cases he : ek = k
    · subst he
      simp [List.lookup_cons]
    · have hk : (k == ek) = false := by
        simp; exact fun h1 => he h1.symm
      have h2 : es.any (fun e => e.1 == k) = true := by
        simpa [he] using h
      simp only [List.map_cons, he, if_false, List.lookup_cons, hk, ih h2]

theorem lookup_append_new_ne (es : List (String × DomainState)) (k k1 : String)
    (v : DomainState) (h : k ≠ k1) : (es ++ [(k1, v)]).lookup k = es.lookup k := by
  induction es with
  | nil =>
    have hk : (k == k1) = false := by simpa using h
    simp [List.lookup_cons, hk]
  | cons e es ih =>
    rcases e with ⟨ek, ev⟩
    simp only [List.cons_append, List.lookup_cons, ih]

theorem lookup_append_new_eq (es : List (String × DomainState)) (k : String) (v : DomainState)
    (h : es.any (fun e => e.1 == k) = false) : (es ++ [(k, v)]).lookup k = some v := by
  induction es with
  | nil => simp [List.lookup_cons]
  | cons e es ih =>
    rcases e with ⟨ek, ev⟩
    have he : ek ≠ k := by
      intro h1; subst h1; simp at h
    have hk : (k == ek) = false := by
      simp; exact fun h1 => he h1.symm
    have h2 : es.any (fun e => e.1 == k) = false := by
      simpa [he] using h
    simp only [List.cons_append, List.lookup_cons, hk, ih h2]

theorem lookup_upsert (es : List (String × DomainState)) (k k1 : String) (v : DomainState) :
    (upsert es k1 v).lookup k = if k = k1 then some v else es.lookup k := by
  unfold upsert
  by_cases hany : es.any (fun e => e.1 == k1) = true
  · rw [if_pos hany]
    by_cases hk : k = k1
    · subst hk
      rw [if_pos rfl, lookup_map_upsert_eq es k v hany]
    · rw [if_neg hk, lookup_map_upsert_ne es k k1 v hk]
  · rw [if_neg hany]
    have hf : es.any (fun e => e.1 == k1) = false := Bool.eq_false_iff.mpr hany
    by_cases hk : k = k1
    · subst hk
      rw [if_pos rfl, lookup_append_new_eq es k v hf]
    · rw [if_neg hk, lookup_append_new_ne es k k1 v hk]

theorem lookup_foldl_upsert (c : List DomainState) (w : DomainState) (k : String) :
    ∀ es : List (String × DomainState),
      (c.foldl (fun es s => upsert es s.Name w) es).lookup k
        = if k ∈ c.map (fun s => s.Name) then some w else es.lookup k := by
  induction c with
  | nil => intro es; simp
  | cons s c ih =>
    intro es
    simp only [List.foldl_cons, ih, lookup_upsert, List.map_cons, List.mem_cons]
    by_cases h1 : k ∈ c.map (fun s => s.Name)
    · simp [h1]
    · by_cases h2 : k = s.Name
      · simp [h2]
      · simp [h1, h2]

/-- After the bulk write of a chunk, every key of the chunk holds the value of the last
update of the chunk. -/
theorem lookup_applyPut_bulk (es : List (String × DomainState)) (c : List DomainState)
    (k : String) (hk : k ∈ c.map (fun s => s.Name)) :
    (applyPut es (bulk c)).lookup k = some (c.getLast?.getD DomainState.zero).stored := by
  have hfold : applyPut es (bulk c)
      = c.foldl (fun es s => upsert es s.Name (c.getLast?.getD DomainState.zero).stored) es := by
    simp only [applyPut, bulk, List.zip_map', List.foldl_map]
  rw [hfold, lookup_foldl_upsert, if_pos hk]

theorem chunksAux_short (fuel : Nat) (l : List DomainState) (h : l.length < batchSize) :
    chunksAux fuel l = [l] := by
  cases fuel with
  | zero => rfl
  | succ f => simp [chunksAux, h]

theorem chunks_of_full_then_short (c r : List DomainState) (hc : c.length = batchSize)
    (hr : r.length < batchSize) : chunks (c ++ r) = [c, r] := by
  obtain ⟨f, hf⟩ : ∃ f, (c ++ r).length = f + 1 :=
    ⟨449 + r.length, by rw [List.length_append, hc]; simp [batchSize]; omega⟩
  have hnot : ¬ (c ++ r).length < batchSize := by
    rw [List.length_append, hc]; omega
  have htake : (c ++ r).take batchSize = c := by
    rw [← hc]; exact List.take_left' rfl
  have hdrop : (c ++ r).drop batchSize = r := by
    rw [← hc]; exact List.drop_left' rfl
  unfold chunks
  rw [hf]
  simp only [chunksAux, hnot, if_false, htake, hdrop, chunksAux_short f r hr]

/-- A full first chunk `c` followed by a short rest `r`, the first bulk write succeeding and
the second failing with `e`: the error is `e`, the bulk writes received are those of `c`
and of `r`, and every key of `c` holds the value of the last update of `c`. -/
theorem putStates_second_write_fails (d : Datastore) (c r : List DomainState) (e : String)
    (hc : c.length = batchSize) (hr : r.length < batchSize)
    (hclient : d.fault d.calls = none) (h1 : d.fault (d.calls + 1) = none)
    (h2 : d.fault (d.calls + 2) = some e) :
    (putStates d (c ++ r)).err = some e
    ∧ (putStates d (c ++ r)).db.puts = d.puts ++ [bulk c, bulk r]
    ∧ (putStates d (c ++ r)).reports = reportDone c ++ reportFailed r
    ∧ (∀ k, k ∈ c.map (fun s => s.Name) →
        (putStates d (c ++ r)).db.entities.lookup k
          = some (c.getLast?.getD DomainState.zero).stored) := by
  have hchunks : chunks (c ++ r) = [c, r] := chunks_of_full_then_short c r hc hr
  have hne : c ++ r ≠ [] := by
    intro h
    have := congrArg List.length h
    simp [hc, batchSize] at this
  have hrun := putStates_fail_at_chunk d (c ++ r) 1 e hne (by rw [hchunks]; simp) hclient
    (by
      intro j hj1 hj2
      have : j = 1 := by omega
      subst this
      exact h1)
    h2
  rw [hrun, hchunks]
  refine ⟨rfl, by simp, by simp, ?_⟩
  intro k hk
  simp only [List.take_succ_cons, List.take_zero, List.foldl_cons, List.foldl_nil]
  exact lookup_applyPut_bulk _ _ _ hk

/-- C5 (evaluation at the failing input): the plan is `a.com -> preloaded`, 449 updates to
`removed` and `z.com -> preloaded`, so chunk 1 has 450 entries and chunk 2 has one; the
client is obtained, the bulk write of chunk 1 succeeds and that of chunk 2 fails.
`putStates` returns the error of chunk 2 and made exactly the two bulk writes, those of
chunk 1 and of chunk 2, but chunk 1 is not applied as given: `a.com` is stored as
`removed`, the value of the last update of the chunk, not as `preloaded`. -/
theorem putStates_partial_batch_stores_last_value :
    mixedUpdates.head? = some ⟨"a.com", StatusPreloaded, "", 0⟩
    ∧ firstChunk.length = batchSize
    ∧ chunks mixedUpdates = [firstChunk, [⟨"z.com", StatusPreloaded, "", 0⟩]]
    ∧ (putStates (failingAt 2 "deadline exceeded") mixedUpdates).err
        = some "deadline exceeded"
    ∧ (putStates (failingAt 2 "deadline exceeded") mixedUpdates).db.puts
        = [bulk firstChunk, bulk [⟨"z.com", StatusPreloaded, "", 0⟩]]
    ∧ (putStates (failingAt 2 "deadline exceeded") mixedUpdates).db.entities.lookup "a.com"
        = some ⟨"", StatusRemoved, "", 0⟩ := by
  have hlen : firstChunk.length = batchSize := by simp [firstChunk, batchSize]
  have hlast : firstChunk.getLast? = some ⟨"y.com", StatusRemoved, "", 0⟩ := by
    unfold firstChunk
    rw [List.getLast?_concat]
  have hmem : "a.com" ∈ firstChunk.map (fun s => s.Name) := by
    unfold firstChunk
    simp
  have hhead : (firstChunk ++ [(⟨"z.com", StatusPreloaded, "", 0⟩ : DomainState)]).head?
      = some ⟨"a.com", StatusPreloaded, "", 0⟩ := by
    unfold firstChunk
    simp
  have h := putStates_second_write_fails (failingAt 2 "deadline exceeded") firstChunk
    [⟨"z.com", StatusPreloaded, "", 0⟩] "deadline exceeded" hlen (by simp [batchSize])
    (by simp [failingAt]) (by simp [failingAt]) (by simp [failingAt])
  have hlook := h.2.2.2 "a.com" hmem
  rw [hlast] at hlook
  simp only [Option.getD_some, DomainState.stored] at hlook
  have hputs := h.2.1
  have hnone : (failingAt 2 "deadline exceeded").puts = [] := rfl
  rw [hnone, List.nil_append] at hputs
  have hchunks := chunks_of_full_then_short firstChunk [⟨"z.com", StatusPreloaded, "", 0⟩] hlen
    (by simp [batchSize])
  unfold mixedUpdates
  exact ⟨hhead, hlen, hchunks, h.1, hputs, hlook⟩

/-- When every backend interaction succeeds, the bulk writes of `putStates` are those of
the chunks: their keys concatenated are the names of the updates in order, none carries
more than `batchSize` entries, and their number is `n / batchSize + 1`. -/
theorem putStates_bulk_writes_shape (d : Datastore) (updates : List DomainState)
    (hne : updates ≠ [])
    (hok : ∀ j, j ≤ (chunks updates).length → d.fault (d.calls + j) = none) :
    (putStates d updates).db.puts = d.puts ++ (chunks updates).map bulk
    ∧ (((chunks updates).map bulk).map (fun kv => kv.1)).flatten
        = updates.map (fun s => s.Name)
    ∧ (∀ kv ∈ (chunks updates).map bulk, kv.1.length ≤ batchSize)
    ∧ ((chunks updates).map bulk).length = updates.length / batchSize + 1 := by
  rw [putStates_all_ok d updates hne hok]
  refine ⟨rfl, ?_, ?_, ?_⟩
  · have : ((chunks updates).map bulk).map (fun kv => kv.1)
        = (chunks updates).map (List.map (fun s => s.Name)) := by
      simp [bulk, Function.comp_def]
    rw [this, ← List.map_flatten, chunks_flatten]
  · intro kv hkv
    obtain ⟨c, hc, rfl⟩ := List.mem_map.mp hkv
    simpa [bulk] using chunks_length_le updates c hc
  · simp [chunks_length]

/-- C9 (evaluation at the failing input): for a list of exactly `batchSize` = 450 updates,
with every backend interaction succeeding, `putStates` makes two bulk writes, of 450 and of
0 entries, although `ceil(450 / 450) = 1`. -/
theorem putStates_full_batch_then_empty_write :
    (manyUpdates 450).length = 450
    ∧ ((putStates (healthy []) (manyUpdates 450)).db.puts).map (fun kv => kv.1.length) = [450, 0]
    ∧ ((putStates (healthy []) (manyUpdates 450)).db.puts).getLast? = some ([], [])
    ∧ (putStates (healthy []) (manyUpdates 450)).reports
        = [⟨"Updating %d entries...", [Arg.num 450]⟩, ⟨" done.\n", []⟩,
           ⟨"Updating %d entries...", [Arg.num 0]⟩, ⟨" done.\n", []⟩] := by
  have hl : (manyUpdates 450).length = 450 := by simp [manyUpdates]
  have hne : manyUpdates 450 ≠ [] := by
    intro h
    rw [h] at hl
    simp at hl
  have hrun := putStates_all_ok (healthy []) (manyUpdates 450) hne (by intro j _; rfl)
  rw [hrun, chunks_of_full_batch _ hl]
  refine ⟨hl, ?_, ?_, ?_⟩
  · generalize manyUpdates 450 = l at hl
    simp only [healthy, List.nil_append, List.map_cons, List.map_nil, bulk, List.length_map, hl,
      List.length_nil]
  · generalize manyUpdates 450 = l
    have hb : bulk ([] : List DomainState) = ([], []) := rfl
    simp [healthy, hb]
  · generalize manyUpdates 450 = l at hl
    simp only [List.flatMap_cons, List.flatMap_nil, reportDone, hl, List.length_nil,
      List.append_nil, List.cons_append, List.nil_append]

/-- C6 (evaluation at the failing input): for the plan `a.com -> preloaded`,
`c.com -> removed`, with every backend interaction succeeding, the single bulk write has
the keys `a.com`, `c.com`, and the value read for BOTH keys is the state of `c.com`
(status `removed`); afterwards the store maps `a.com` to `removed`, not to `preloaded`. -/
theorem putStates_values_alias_loop_variable :
    (putStates (healthy []) twoUpdates).err = none
    ∧ (putStates (healthy []) twoUpdates).db.puts
        = [(["a.com", "c.com"],
            [⟨"c.com", "removed", "", 0⟩, ⟨"c.com", "removed", "", 0⟩])]
    ∧ (putStates (healthy []) twoUpdates).db.entities
        = [("a.com", ⟨"", "removed", "", 0⟩), ("c.com", ⟨"", "removed", "", 0⟩)]
    ∧ ((putStates (healthy []) twoUpdates).db.entities.lookup "a.com").map (fun s => s.Status)
        ≠ some StatusPreloaded := by
  decide


/-! ### Reconciliation plan -/

theorem actualPreload_eq (entries : List Entry) (acc : List String) :
    entries.foldl (fun acc entry => if entry.Mode = ForceHTTPS then acc ++ [entry.Name] else acc)
        acc
      = acc ++ (entries.filter (fun e => decide (e.Mode = ForceHTTPS))).map (fun e => e.Name) := by
  induction entries generalizing acc with
  | nil => simp
  | cons e es ih =>
    simp only [List.foldl_cons, ih, List.filter_cons]
    by_cases h : e.Mode = ForceHTTPS <;> simp [h]

theorem appendLoop_eq (mk : String → DomainState) (names : List String)
    (updates : List DomainState) :
    names.foldl (fun updates name => updates ++ [mk name]) updates = updates ++ names.map mk := by
  induction names generalizing updates with
  | nil => simp
  | cons n ns ih => simp [List.foldl_cons, ih]

/-- C2: when the list fetch and both store listings succeed — with `U` the names of the
upstream entries whose mode is force-https in list order, `P` the preloaded listing and `R`
the pending-removal listing — `Update_old` hands to `PutStates` exactly the plan
`(U − P) − R` as `preloaded`, then `P − U` as `removed`, then `R − U` as `rejected` with
the fixed message, reports the three counts in its header, and the length of the plan is
added + removed + self-rejected. -/
theorem Update_old_plan {σ : Type} (api : API σ) (s s1 s2 : σ) (preloadList : PreloadList)
    (P R : List String)
    (hlist : api.NewFromLatest = Except.ok preloadList)
    (hP : api.database.DomainsWithStatus_old s StatusPreloaded = (s1, Except.ok P))
    (hR : api.database.DomainsWithStatus_old s1 StatusPendingRemoval = (s2, Except.ok R)) :
    let U := (preloadList.Entries.filter (fun e => decide (e.Mode = ForceHTTPS))).map
      (fun e => e.Name)
    let added := difference_old (difference_old U P) R
    let removed := difference_old P U
    let selfRejected := difference_old R U
    let plan : List DomainState :=
      added.map (fun name => ⟨name, StatusPreloaded, "", 0⟩)
        ++ removed.map (fun name => ⟨name, StatusRemoved, "", 0⟩)
        ++ selfRejected.map (fun name =>
            ⟨name, StatusRejected, "Domain was added and removed without being preloaded.", 0⟩)
    let header := Out.printf ⟨"The preload list has %d entries.\n- # of preloaded HSTS entries: %d\n- # to be added in this update: %d\n- # to be removed this update: %d\n- # to be self-rejected this update: %d\n",
      [Arg.num preloadList.Entries.length, Arg.num U.length, Arg.num added.length,
       Arg.num removed.length, Arg.num selfRejected.length]⟩
    let put := api.database.PutStates s2 plan
    let msg (putErr : String) : String :=
      "Internal error: datastore update failed. (" ++ putErr ++ ")\n"
    plan.length = added.length + removed.length + selfRejected.length
    ∧ Update_old api s =
        (put.1, [header] ++ put.2.1.map Out.printf ++
          [match put.2.2 with
           | some putErr => if put.2.1 ≠ [] then Out.printf ⟨msg putErr, []⟩
                            else Out.httpError (msg putErr) 500
           | none => Out.printf ⟨"Success. %d domain states updated.\n",
                       [Arg.num plan.length]⟩]) := by
  intro U added removed selfRejected plan header put msg
  refine ⟨by simp [plan, Nat.add_assoc], ?_⟩
  have hplan : (selfRejected.foldl (fun updates name => updates ++
        [(⟨name, StatusRejected, "Domain was added and removed without being preloaded.", 0⟩ :
          DomainState)])
      (removed.foldl (fun updates name => updates ++ [(⟨name, StatusRemoved, "", 0⟩ : DomainState)])
        (added.foldl (fun updates name => updates ++
          [(⟨name, StatusPreloaded, "", 0⟩ : DomainState)]) []))) = plan := by
    simp only [appendLoop_eq, List.nil_append, plan]
  simp only [Update_old, hlist, hP, hR, actualPreload_eq, List.nil_append]
  show (match api.database.PutStates s2 _ with
        | (s3, logged, some putErr) => _
        | (s3, logged, none) => _) = _
  rw [hplan]
  show (match put with
        | (s3, logged, some putErr) => _
        | (s3, logged, none) => _) = _
  rcases put with ⟨s3, logged, err⟩
  cases err with
  | none => rfl
  | some putErr =>
    by_cases hl : logged = []
    · simp [hl, header, msg, U]
    · simp [hl, header, msg, U]


/-- Witness for C2: the scenario of the spec, upstream `a.com`, `b.com`, preloaded `b.com`,
`c.com`, nothing pending removal: the plan is `a.com -> preloaded`, `c.com -> removed`, the
header reports added = 1, removed = 1, self-rejected = 0. -/
theorem Update_old_plan_witness :
    (scenarioApi.NewFromLatest = Except.ok ⟨[⟨"a.com", ForceHTTPS⟩, ⟨"b.com", ForceHTTPS⟩]⟩
      ∧ scenarioApi.database.DomainsWithStatus_old [] StatusPreloaded
          = ([], Except.ok ["b.com", "c.com"])
      ∧ scenarioApi.database.DomainsWithStatus_old [] StatusPendingRemoval = ([], Except.ok []))
    ∧ Update_old scenarioApi [] =
        ([⟨"a.com", "preloaded", "", 0⟩, ⟨"c.com", "removed", "", 0⟩],
         [Out.printf ⟨"The preload list has %d entries.\n- # of preloaded HSTS entries: %d\n- # to be added in this update: %d\n- # to be removed this update: %d\n- # to be self-rejected this update: %d\n",
            [Arg.num 2, Arg.num 2, Arg.num 1, Arg.num 1, Arg.num 0]⟩,
          Out.printf ⟨"Success. %d domain states updated.\n", [Arg.num 2]⟩]) :=
  ⟨⟨rfl, rfl, rfl⟩,
   (Update_old_plan scenarioApi [] [] [] ⟨[⟨"a.com", ForceHTTPS⟩, ⟨"b.com", ForceHTTPS⟩]⟩
      ["b.com", "c.com"] [] rfl rfl rfl).2.trans (by decide)⟩

/-! ### Idempotence of the reconciliation -/

/-- C3 (evaluation at the failing input): the store records `c.com` as preloaded, upstream
lists only `a.com`.  The first `update` plans `a.com -> preloaded`, `c.com -> removed` and
`putStates` succeeds, but the bulk write stores `removed` under both keys; the second
`update` on the resulting store and the same upstream list again plans
`a.com -> preloaded`: its plan is not empty. -/
theorem update_twice_second_plan_not_empty :
    (update staleStore upstreamA true).2 =
        [Out.printf ⟨"The preload list has %d entries.\n- # of preloaded HSTS entries: %d\n- # to be added in this update: %d\n- # to be removed this update: %d\n",
            [Arg.num 1, Arg.num 1, Arg.num 1, Arg.num 1]⟩,
         Out.printf ⟨"Updating %d entries...", [Arg.num 2]⟩, Out.flush,
         Out.printf ⟨" done.\n", []⟩, Out.flush,
         Out.printf ⟨"Success. %d domain states updated.\n", [Arg.num 2]⟩]
    ∧ (update staleStore upstreamA true).1.entities =
        [("c.com", ⟨"", "removed", "", 0⟩), ("a.com", ⟨"", "removed", "", 0⟩)]
    ∧ (update (update staleStore upstreamA true).1 upstreamA true).2 =
        [Out.printf ⟨"The preload list has %d entries.\n- # of preloaded HSTS entries: %d\n- # to be added in this update: %d\n- # to be removed this update: %d\n",
            [Arg.num 1, Arg.num 1, Arg.num 1, Arg.num 0]⟩,
         Out.printf ⟨"Updating %d entries...", [Arg.num 1]⟩, Out.flush,
         Out.printf ⟨" done.\n", []⟩, Out.flush,
         Out.printf ⟨"Success. %d domain states updated.\n", [Arg.num 1]⟩]
    ∧ (update (update staleStore upstreamA true).1 upstreamA true).1.puts =
        [(["a.com", "c.com"], [⟨"c.com", "removed", "", 0⟩, ⟨"c.com", "removed", "", 0⟩]),
         (["a.com"], [⟨"a.com", "preloaded", "", 0⟩])] := by
  decide

/-! ### Disjointness of the three sets -/

/-- C4 (as amended): for all `U`, `P`, `R`, `added = (U − P) − R` is disjoint from
`removed = P − U` and from `selfRejected = R − U`; `removed` and `selfRejected` are
disjoint when `P` and `R` are, as two status listings of one store are. -/
theorem reconcile_sets_disjoint (U P R : List String) :
    List.Disjoint (difference_old (difference_old U P) R) (difference_old P U)
    ∧ List.Disjoint (difference_old (difference_old U P) R) (difference_old R U)
    ∧ (List.Disjoint P R → List.Disjoint (difference_old P U) (difference_old R U)) := by
  simp only [difference_old_eq]
  refine ⟨?_, ?_, ?_⟩
  · intro x hx hy
    have h1 := (mem_difference.mp (mem_difference.mp hx).1).1
    exact (mem_difference.mp hy).2 h1
  · intro x hx hy
    have h1 := (mem_difference.mp (mem_difference.mp hx).1).1
    exact (mem_difference.mp hy).2 h1
  · intro hPR x hx hy
    exact hPR (mem_difference.mp hx).1 (mem_difference.mp hy).1

/-- Witness for C4: `U = [a.com, b.com]`, `P = [b.com, c.com]`, `R = [d.com]`. -/
theorem reconcile_sets_disjoint_witness :
    List.Disjoint ["b.com", "c.com"] ["d.com"]
    ∧ List.Disjoint (difference_old ["b.com", "c.com"] ["a.com", "b.com"])
        (difference_old ["d.com"] ["a.com", "b.com"]) :=
  ⟨by simp, (reconcile_sets_disjoint ["a.com", "b.com"] ["b.com", "c.com"] ["d.com"]).2.2
    (by simp)⟩

/-- C4 (counterexample): for `U = []`, `P = [x.com]`, `R = [x.com]` the name `x.com` is in
both `removed = P − U` and `selfRejected = R − U`. -/
theorem removed_and_selfRejected_overlap :
    difference_old ["x.com"] [] = ["x.com"]
    ∧ ¬ List.Disjoint (difference_old ["x.com"] []) (difference_old ["x.com"] []) := by
  refine ⟨by decide, ?_⟩
  intro h
  have hx : "x.com" ∈ difference_old ["x.com"] [] := by decide
  exact h hx hx


/-! ### Submission -/

theorem stateForDomain_found (d : Datastore) (domain : String) (st : DomainState)
    (hclient : d.fault d.calls = none) (hget : d.fault (d.calls + 1) = none)
    (hst : d.entities.lookup domain = some st) :
    stateForDomain d domain = ({ d with calls := d.calls + 1 + 1 }, st, none) := by
  simp [stateForDomain, NewClient, Get, hclient, hget, hst]

theorem submit_of_errors (d : Datastore) (pred : String → Issues) (now : Nat)
    (format : Nat → String) (domain : String) (he : (pred domain).Errors ≠ []) :
    submit d pred now format domain = (d, [Out.json (pred domain)]) := by
  have : (pred domain).Errors.length > 0 := List.length_pos.mpr he
  simp [submit, this, writeJSONOrBust]

/-- C7 (as amended): for a domain whose stored status is `preloaded` (and a backend that
answers the read), `submit` writes nothing to the store; when the eligibility predicate
reports no error the response is the issues with the error `already preloaded` added and
the warnings unchanged; when it reports errors the response is the predicate's issues
unchanged. -/
theorem submit_preloaded (d : Datastore) (pred : String → Issues) (now : Nat)
    (format : Nat → String) (domain : String) (st : DomainState)
    (hclient : d.fault d.calls = none) (hget : d.fault (d.calls + 1) = none)
    (hst : d.entities.lookup domain = some st) (hstatus : st.Status = StatusPreloaded) :
    (submit d pred now format domain).1.entities = d.entities
    ∧ (submit d pred now format domain).1.puts = d.puts
    ∧ ((pred domain).Errors = [] →
        (submit d pred now format domain).2
          = [Out.json ⟨[alreadyPreloadedIssue], (pred domain).Warnings⟩])
    ∧ ((pred domain).Errors ≠ [] →
        (submit d pred now format domain).2 = [Out.json (pred domain)]) := by
  by_cases he : (pred domain).Errors = []
  · have hs : submit d pred now format domain
        = ({ d with calls := d.calls + 1 + 1 },
            [Out.json ⟨[alreadyPreloadedIssue], (pred domain).Warnings⟩]) := by
      simp [submit, he, stateForDomain_found d domain st hclient hget hst, hstatus,
        StatusPreloaded, StatusUnknown, StatusRejected, StatusRemoved, StatusPending,
        writeJSONOrBust, alreadyPreloadedIssue]
    rw [hs]
    exact ⟨rfl, rfl, fun _ => rfl, fun h => absurd he h⟩
  · rw [submit_of_errors d pred now format domain he]
    exact ⟨rfl, rfl, fun h => absurd h he, fun _ => rfl⟩

/-- Witness for C7: `y.com` stored as `preloaded`, a predicate that reports one warning. -/
theorem submit_preloaded_witness :
    ((storeWith "y.com" StatusPreloaded).entities.lookup "y.com"
        = some ⟨"", StatusPreloaded, "", 1000⟩)
    ∧ (submit (storeWith "y.com" StatusPreloaded) (fun _ => ⟨[], [maxAgeWarning]⟩) 2000 showDate
          "y.com").1.puts = []
    ∧ (submit (storeWith "y.com" StatusPreloaded) (fun _ => ⟨[], [maxAgeWarning]⟩) 2000 showDate
          "y.com").2 = [Out.json ⟨[alreadyPreloadedIssue], [maxAgeWarning]⟩] :=
  have h := submit_preloaded (storeWith "y.com" StatusPreloaded)
    (fun _ => ⟨[], [maxAgeWarning]⟩) 2000 showDate "y.com" ⟨"", StatusPreloaded, "", 1000⟩
    rfl rfl rfl rfl
  ⟨rfl, h.2.1, h.2.2.1 rfl⟩

/-- C7 (counterexample): `y.com` is stored as `preloaded` and the eligibility predicate
reports the error `no HSTS header`: the response is the predicate's issues alone, and no
issue `already preloaded` is among the returned errors. -/
theorem ineligible_preloaded_domain_gets_no_already_preloaded :
    (stateForDomain (storeWith "y.com" StatusPreloaded) "y.com").2.1.Status = StatusPreloaded
    ∧ (submit (storeWith "y.com" StatusPreloaded) (fun _ => ⟨[noHeaderIssue], []⟩) 2000 showDate
          "y.com").2 = [Out.json ⟨[noHeaderIssue], []⟩]
    ∧ ¬ (∃ issues, Out.json issues ∈ (submit (storeWith "y.com" StatusPreloaded)
            (fun _ => ⟨[noHeaderIssue], []⟩) 2000 showDate "y.com").2
          ∧ alreadyPreloadedIssue ∈ issues.Errors) := by
  have hout : (submit (storeWith "y.com" StatusPreloaded) (fun _ => ⟨[noHeaderIssue], []⟩) 2000
      showDate "y.com").2 = [Out.json ⟨[noHeaderIssue], []⟩] := by decide
  refine ⟨by decide, hout, ?_⟩
  rintro ⟨issues, hmem, hin⟩
  rw [hout] at hmem
  simp only [List.mem_singleton, Out.json.injEq] at hmem
  subst hmem
  revert hin
  decide

/-- C8 (as amended): for a domain whose stored status is `pending` (and a backend that
answers the read), `submit` writes nothing to the store, so the stored record and its
submission date are unchanged; when the eligibility predicate reports no error the
response has no error and its warnings are the predicate's warnings followed by the
warning `already pending`, whose message quotes the formatted stored submission date; when
the predicate reports errors the response is the predicate's issues unchanged. -/
theorem submit_pending (d : Datastore) (pred : String → Issues) (now : Nat)
    (format : Nat → String) (domain : String) (st : DomainState)
    (hclient : d.fault d.calls = none) (hget : d.fault (d.calls + 1) = none)
    (hst : d.entities.lookup domain = some st) (hstatus : st.Status = StatusPending) :
    (submit d pred now format domain).1.entities = d.entities
    ∧ (submit d pred now format domain).1.puts = d.puts
    ∧ ((pred domain).Errors = [] →
        (submit d pred now format domain).2
          = [Out.json ⟨[], (pred domain).Warnings
                ++ [alreadyPendingIssue (format st.SubmissionDate)]⟩])
    ∧ ((pred domain).Errors ≠ [] →
        (submit d pred now format domain).2 = [Out.json (pred domain)]) := by
  by_cases he : (pred domain).Errors = []
  · have hs : submit d pred now format domain
        = ({ d with calls := d.calls + 1 + 1 },
            [Out.json ⟨[], (pred domain).Warnings
                ++ [alreadyPendingIssue (format st.SubmissionDate)]⟩]) := by
      simp [submit, he, stateForDomain_found d domain st hclient hget hst, hstatus,
        StatusUnknown, StatusRejected, StatusRemoved, StatusPending,
        writeJSONOrBust, alreadyPendingIssue]
    rw [hs]
    exact ⟨rfl, rfl, fun _ => rfl, fun h => absurd he h⟩
  · rw [submit_of_errors d pred now format domain he]
    exact ⟨rfl, rfl, fun h => absurd h he, fun _ => rfl⟩

/-- Witness for C8: `x.com` stored as `pending` since time 1000, an eligible domain. -/
theorem submit_pending_witness :
    ((storeWith "x.com" StatusPending).entities.lookup "x.com"
        = some ⟨"", StatusPending, "", 1000⟩)
    ∧ (submit (storeWith "x.com" StatusPending) (fun _ => ⟨[], []⟩) 2000 showDate
          "x.com").1.entities = [("x.com", ⟨"", StatusPending, "", 1000⟩)]
    ∧ (submit (storeWith "x.com" StatusPending) (fun _ => ⟨[], []⟩) 2000 showDate
          "x.com").2 = [Out.json ⟨[], [] ++ [alreadyPendingIssue (showDate 1000)]⟩] :=
  have h := submit_pending (storeWith "x.com" StatusPending)
    (fun _ => ⟨[], []⟩) 2000 showDate "x.com" ⟨"", StatusPending, "", 1000⟩
    rfl rfl rfl rfl
  ⟨rfl, h.1, h.2.2.1 rfl⟩

/-- C8 (counterexample): `x.com` is stored as `pending` and the eligibility predicate
reports the error `no HSTS header`: the response carries that error and no warning. -/
theorem ineligible_pending_domain_gets_error_and_no_warning :
    (stateForDomain (storeWith "x.com" StatusPending) "x.com").2.1.Status = StatusPending
    ∧ (submit (storeWith "x.com" StatusPending) (fun _ => ⟨[noHeaderIssue], []⟩) 2000 showDate
          "x.com").2 = [Out.json ⟨[noHeaderIssue], []⟩] := by
  decide

/-- C10 (evaluation at the failing input): `z.com` is stored with the status
`pending-removal`, which `submit` does not know, and the eligibility predicate reports no
error and one warning: nothing is written, and the returned errors are that validation
warning followed by the internal-error issue, not the internal-error issue alone. -/
theorem submit_unknown_status_turns_warnings_into_errors :
    (submit (storeWith "z.com" "pending-removal") (fun _ => ⟨[], [maxAgeWarning]⟩) 2000
        showDate "z.com").2
      = [Out.json ⟨[maxAgeWarning, unknownStatusIssue], [maxAgeWarning]⟩]
    ∧ (submit (storeWith "z.com" "pending-removal") (fun _ => ⟨[], [maxAgeWarning]⟩) 2000
        showDate "z.com").1.puts = []
    ∧ ([maxAgeWarning, unknownStatusIssue] ≠ [unknownStatusIssue]) := by
  decide


end HstsPreload
